import Mathlib

/-!
Verification of the github-org-metrics aggregation pipeline
(`github_metrics.py`).

The script fetches a snapshot of GitHub entities for one organization and
aggregates it (`analyze_data`) into a per-developer table and a
per-repository table.  This file shallowly embeds the snapshot data model
and the aggregation, and proves the frozen claims about it.

Modelling conventions:
* ISO-8601 timestamps are modelled as natural numbers (seconds); the
  source's chronological comparisons (`>= since` on parsed or raw ISO
  strings) become `≤` on `Nat`.  Durations become `Int` seconds (the
  source divides `total_seconds()` by 3600 or 60; the outlier thresholds
  720 h and 2160 h are compared in seconds here, which is equivalent).
* Ratios and averages are modelled as `ℚ` in place of Python floats.
* A JSON field that the source accesses through a guard
  (`x.get(k)`, `'k' in x`, truthiness) is an `Option`; `none` covers the
  null / absent / falsey cases the guard rejects.  The commit date at
  `commit['commit']['author']['date']` is accessed with NO guard in the
  source, so its absence is modelled as a raised `KeyError`
  (`Except.error`), aborting `analyze_data`.
* `defaultdict(int)` counters are total functions `String → Nat`
  (default 0); a key is "present" in such a dict iff its count is
  positive, since the source only ever increments.
-/

namespace GHM

/-- A repository row as returned by the org-repos endpoint.
`language` is nullable (`repo['language'] or 'N/A'`). -/
structure Repo where
  name : String
  language : Option String
  created_at : Nat
  updated_at : Nat
  pushed_at : Nat
deriving DecidableEq, Inhabited

/-- One element of the commit list: `sha`, the top-level GitHub user
(`commit['author']`, null or login-less collapses to `none`), and the git
author date `commit['commit']['author']['date']` (`none` models the key
being absent — the source reads it without any guard). -/
structure CommitInfo where
  sha : String
  author : Option String
  authoredDate : Option Nat
deriving DecidableEq, Inhabited

/-- Commit stats from the commit-detail endpoint. -/
structure Stats where
  additions : Nat
  deletions : Nat
deriving DecidableEq, Inhabited

/-- A pull request. `user` is the author login (null / login-less =
`none`); `merged_at` is nullable; `headRef` is `pr['head']['ref']`
(`none` when the keys are missing or the ref is falsey). -/
structure PullRequest where
  number : Nat
  user : Option String
  created_at : Nat
  updated_at : Nat
  merged_at : Option Nat
  headRef : Option String
  state : String
deriving DecidableEq, Inhabited

/-- A PR review: user login (guarded in the source) and `submitted_at`
(the source checks `'submitted_at' in review`). -/
structure Review where
  user : Option String
  submitted_at : Option Nat
deriving DecidableEq, Inhabited

/-- A PR comment: user login and `created_at`. -/
structure Comment where
  user : Option String
  created_at : Option Nat
deriving DecidableEq, Inhabited

/-- A GitHub Actions workflow run.  `name`, `created_at`, `updated_at`
are guarded with `'k' in run` checks in the source; `conclusion` is
always present in the payload but null until the run finishes. -/
structure WorkflowRun where
  name : Option String
  status : String
  conclusion : Option String
  created_at : Option Nat
  updated_at : Option Nat
deriving DecidableEq, Inhabited

/-- The snapshot produced by `fetch_data` (or reloaded from cache), as
consumed by `analyze_data`.  Per-repo collections are keyed by repository
name.  `pr_reviews` / `pr_comments` keep the dict layout the source
iterates over: a list of (repo name, per-PR entries) pairs — the repo
keys may include repositories outside the analysis set, and each per-PR
entry may be null (`... or []` in the source).
`branch_first_commits rn br = some d` iff the branch key is present, the
stored entry is non-null and carries `commit.committer.date` — the
source checks exactly that chain before using it.
`workflow_runs rn = some runs` iff the repo key exists, the stored value
is truthy and has a `workflow_runs` key.
`branches` / `contributors` store `make_request`'s result directly
(lines 230-231): `none` models the `None` a failed fetch leaves behind,
on which `len(...)` at lines 475-476 raises and aborts the analysis. -/
structure Snapshot where
  repos : List Repo
  commits : String → List CommitInfo
  commit_stats : String → String → Option Stats
  branches : String → Option (List String)
  contributors : String → Option (List String)
  pull_requests : String → List PullRequest
  pr_reviews : List (String × List (Option (List Review)))
  pr_comments : List (String × List (Option (List Comment)))
  branch_first_commits : String → String → Option Nat
  workflow_runs : String → Option (List WorkflowRun)

/-- Increment a `defaultdict(int)` counter at one key. -/
def bump (f : String → Nat) (k : String) : String → Nat :=
  fun x => if x = k then f x + 1 else f x

/-- Add `n` to a counter at one key (`lines_added[author] += additions`). -/
def bumpN (f : String → Nat) (k : String) (n : Nat) : String → Nat :=
  fun x => if x = k then f x + n else f x

/-- Increment a nested counter (`repos_worked_on[author][repo] += 1`). -/
def bump2 (f : String → String → Nat) (k k2 : String) : String → String → Nat :=
  fun x => if x = k then bump (f x) k2 else f x

/-! ### Fetcher (`make_request`) -/

/-- The response cases `make_request` distinguishes, in source order:
HTTP 200; HTTP 403 with `X-RateLimit-Remaining == 0` (carrying the
reported reset epoch); HTTP 403 with a permission-denied body; HTTP 404;
any other status; a network-level exception. -/
inductive HttpResp where
  | success (body : String)
  | rateLimited (resetEpoch : Int)
  | permissionDenied
  | notFound
  | otherStatus (code : Nat)
  | netError
deriving DecidableEq, Inhabited

/-- `sleep_time = max(1, reset_time - time.time() + 1)`. -/
def rateLimitSleep (resetEpoch now : Int) : Int :=
  max 1 (resetEpoch - now + 1)

/-- The `while True` loop of `make_request`, driven by the sequence of
responses the server would return on successive attempts (paired with
the current clock).  `none` means the loop is still retrying after
consuming the whole sequence — only rate-limited responses are retried;
every other case returns immediately (`some (some body)` for 200,
`some none` for the null-returning cases). -/
def makeRequestSteps : List (HttpResp × Int) → Option (Option String)
  | [] => none
  | (r, _) :: rest =>
    match r with
    | .success body => some (some body)
    | .rateLimited _ => makeRequestSteps rest
    | .permissionDenied => some none
    | .notFound => some none
    | .otherStatus _ => some none
    | .netError => some none

/-! ### Workflow inference (`analyze_data`, lines 363-397) -/

/-- `pat` occurs as a contiguous run at the head of `hay`. -/
def startsList : List Char → List Char → Bool
  | _, [] => true
  | [], _ :: _ => false
  | a :: as, b :: bs => a == b && startsList as bs

/-- `pat` occurs contiguously anywhere in `hay` (Python `pat in hay`). -/
def hasSubstrList : List Char → List Char → Bool
  | [], pat => startsList [] pat
  | a :: as, pat => startsList (a :: as) pat || hasSubstrList as pat

/-- Python substring test `pat in s`. -/
def hasSubstr (s pat : String) : Bool :=
  hasSubstrList s.toList pat.toList

/-- Python `str.lower()`, applied character-wise (the workflow names the
heuristic compares are ASCII). -/
def pyLower (s : String) : String :=
  String.mk (s.toList.map Char.toLower)

/-- The distinct elements of `l` in first-occurrence order
(the key order of a `collections.Counter` built from `l`). -/
def uniqKeepFirst (l : List String) : List String :=
  l.foldl (fun acc a => if acc.contains a then acc else acc ++ [a]) []

/-- `Counter(l).most_common(1)`: the element with the largest
multiplicity, earliest first occurrence winning ties (Python's sort is
stable over insertion order); `none` for an empty list. -/
def mostCommon (l : List String) : Option String :=
  (uniqKeepFirst l).foldl (fun best a =>
    match best with
    | none => some a
    | some b => if l.count b < l.count a then some a else best) none

/-- The per-repository CI/CD workflow-name heuristic: lower-cased truthy
run names; prefer the most common one containing "ci", "test", "build"
or "deploy"; otherwise the most common name overall; `none` when there
are no names. -/
def detectWorkflow (runs : List WorkflowRun) : Option String :=
  let names := runs.filterMap (fun run =>
    match run.name with
    | some n => if n = "" then none else some (pyLower n)
    | none => none)
  let ciNames := names.filter (fun n =>
    hasSubstr n "ci" || hasSubstr n "test" || hasSubstr n "build" || hasSubstr n "deploy")
  if ciNames ≠ [] then mostCommon ciNames
  else mostCommon names

/-- `specific_workflows.get(rn)`: the inferred workflow name, computed
only when the repo has a workflow-run list with at least one run. -/
def specificWorkflow (s : Snapshot) (rn : String) : Option String :=
  match s.workflow_runs rn with
  | some runs => if 0 < runs.length then detectWorkflow runs else none
  | none => none

/-! ### Deployment metrics (`analyze_data`, lines 434-463) -/

/-- Per-repository deployment accumulators: attempt count, failure
count, and the successful-run duration samples in minutes. -/
structure DeployAcc where
  count : Nat
  failures : Nat
  durations : List ℚ
deriving DecidableEq, Inhabited

/-- One workflow run, against the inferred workflow name `w`: requires
the `created_at` and `name` keys with `name.lower() == w`; a run created
`>= since` counts as an attempt; a `success` conclusion adds
`(updated_at - created_at)` minutes (when `updated_at` is present); a
`failure` conclusion increments the failure counter.  No status check is
performed. -/
def processRun (w : String) (since : Nat) (acc : DeployAcc) (run : WorkflowRun) : DeployAcc :=
  match run.created_at, run.name with
  | some c, some n =>
    if pyLower n = w then
      if since ≤ c then
        let acc1 : DeployAcc := { acc with count := acc.count + 1 }
        if run.conclusion = some "success" then
          match run.updated_at with
          | some u => { acc1 with durations := acc1.durations ++ [(((u : Int) - (c : Int) : Int) : ℚ) / 60] }
          | none => acc1
        else if run.conclusion = some "failure" then
          { acc1 with failures := acc1.failures + 1 }
        else acc1
      else acc
    else acc
  | _, _ => acc

/-- The run loop for one repository's inferred workflow. -/
def processRuns (w : String) (since : Nat) (runs : List WorkflowRun) : DeployAcc :=
  runs.foldl (processRun w since) ⟨0, 0, []⟩

/-- `repo_deployment_counts / _failures / _durations` for one repo:
zero / empty when no workflow name was inferred. -/
def deployAccFor (s : Snapshot) (since : Nat) (rn : String) : DeployAcc :=
  match specificWorkflow s rn with
  | some w =>
    match s.workflow_runs rn with
    | some runs => processRuns w since runs
    | none => ⟨0, 0, []⟩
  | none => ⟨0, 0, []⟩

/-! ### Review / comment attribution (`analyze_data`, lines 399-432) -/

/-- The body of the review loop (lines 407-415): a review with a
resolvable user login and a `submitted_at >= since` bumps the
reviewer's counter. -/
def reviewStep (since : Nat) (acc : String → Nat) (rv : Review) : String → Nat :=
  match rv.user with
  | some u =>
    match rv.submitted_at with
    | some t => if since ≤ t then bump acc u else acc
    | none => acc
  | none => acc

/-- The body of the comment loop (lines 424-431). -/
def commentStep (since : Nat) (acc : String → Nat) (cm : Comment) : String → Nat :=
  match cm.user with
  | some u =>
    match cm.created_at with
    | some t => if since ≤ t then bump acc u else acc
    | none => acc
  | none => acc

/-- The review pre-count: every repo key of the reviews dict is visited,
repos outside the analysis set are skipped; each review is fed to
`reviewStep`.  The owning PR is never consulted. -/
def reviewCounts (s : Snapshot) (since : Nat) : String → Nat :=
  s.pr_reviews.foldl (fun acc p =>
    if (s.repos.map Repo.name).contains p.1 then
      p.2.foldl (fun acc2 ol => (ol.getD []).foldl (reviewStep since) acc2) acc
    else acc) (fun _ => 0)

/-- The comment pre-count, same shape with `created_at`. -/
def commentCounts (s : Snapshot) (since : Nat) : String → Nat :=
  s.pr_comments.foldl (fun acc p =>
    if (s.repos.map Repo.name).contains p.1 then
      p.2.foldl (fun acc2 ol => (ol.getD []).foldl (commentStep since) acc2) acc
    else acc) (fun _ => 0)

/-! ### Commit attribution (`analyze_data`, lines 494-505) -/

/-- The developer-side counters threaded through the commit loop. -/
structure CommitState where
  cc : String → Nat
  la : String → Nat
  ld : String → Nat
  rw : String → String → Nat
  ra : String → Nat

/-- One commit: the source first reads
`commit['commit']['author']['date']` with no guard — an absent date is a
`KeyError` that aborts `analyze_data` (modelled as `Except.error`).
With the date present: a date `>= since` and a non-null author bump the
author's commit count, repos-worked-on tally and the repo's activity
counter; stats, when available, add to the line counters. -/
def processCommit (since : Nat) (stats : String → Option Stats) (rn : String)
    (st : CommitState) (c : CommitInfo) : Except String CommitState :=
  match c.authoredDate with
  | none => .error "KeyError: commit author date"
  | some d =>
    .ok (if since ≤ d then
      match c.author with
      | some a =>
        let st1 : CommitState :=
          { st with cc := bump st.cc a, rw := bump2 st.rw a rn, ra := bump st.ra rn }
        match stats c.sha with
        | some sd => { st1 with la := bumpN st1.la a sd.additions, ld := bumpN st1.ld a sd.deletions }
        | none => st1
      | none => st
    else st)

/-- The commit loop for one repository; the first missing date aborts. -/
def processCommits (since : Nat) (stats : String → Option Stats) (rn : String) :
    List CommitInfo → CommitState → Except String CommitState
  | [], st => .ok st
  | c :: cs, st =>
    match processCommit since stats rn st c with
    | .error e => .error e
    | .ok st2 => processCommits since stats rn cs st2

/-! ### PR lifecycle (`analyze_data`, lines 510-560) -/

/-- PR-side accumulators for one pass: per-author PR-opened counter and
the merge-duration / branch-to-merge sample lists (seconds). -/
structure PRState where
  prc : String → Nat
  mt : List Int
  bt : List Int

/-- One pull request: requires a resolvable author; the inclusion filter
is `created_at >= since or updated_at >= since`; for a merged PR, a
creation-to-merge sample needs `created_at >= since and merged_at >=
since` and a duration `<= 720 h`, and a branch-to-merge sample needs a
resolvable branch-first-commit date and a duration `<= 2160 h`.
(The source guards both sample blocks with the single `if
pr['merged_at']:`; the two matches on `merged_at` here are that one
guard, split per sample list.) -/
def processPR (since : Nat) (bfc : String → Option Nat) (acc : PRState)
    (pr : PullRequest) : PRState :=
  match pr.user with
  | none => acc
  | some a =>
    if since ≤ pr.created_at ∨ since ≤ pr.updated_at then
      let prc2 := bump acc.prc a
      let mt2 :=
        match pr.merged_at with
        | some m =>
          if since ≤ pr.created_at ∧ since ≤ m then
            if ((m : Int) - (pr.created_at : Int)) ≤ 720 * 3600 then
              acc.mt ++ [(m : Int) - (pr.created_at : Int)]
            else acc.mt
          else acc.mt
        | none => acc.mt
      let bt2 :=
        match pr.merged_at with
        | some m =>
          match pr.headRef with
          | some br =>
            match bfc br with
            | some d =>
              if ((m : Int) - (d : Int)) ≤ 2160 * 3600 then
                acc.bt ++ [(m : Int) - (d : Int)]
              else acc.bt
            | none => acc.bt
          | none => acc.bt
        | none => acc.bt
      ⟨prc2, mt2, bt2⟩
    else acc

/-- The PR loop for one repository (fresh per-repo sample lists, as in
the source; the caller appends them to the global lists). -/
def processPRs (since : Nat) (bfc : String → Option Nat)
    (prs : List PullRequest) (prc0 : String → Nat) : PRState :=
  prs.foldl (processPR since bfc) ⟨prc0, [], []⟩

/-! ### Repository rows (`analyze_data`, lines 468-492 and 604-648) -/

/-- One row of the repository table.  The month-name rendering of
`created_at` / `updated_at` is presentation only and is not modelled. -/
structure RepoDetail where
  name : String
  language : String
  branch_count : Nat
  contributor_count : Nat
  deployment_count : Nat
  deployment_failures : Nat
  avg_recovery_time : ℚ
  avg_deployment_duration : ℚ
  deployment_durations_count : Nat
  failure_rate : ℚ
  avg_branch_to_merge_time : ℚ
  branch_merges_count : Nat
deriving DecidableEq, Inhabited

/-- `(sum(l)/len(l)) if l else 0`. -/
def avgOrZero (l : List ℚ) : ℚ :=
  if l = [] then 0 else l.sum / (l.length : ℚ)

/-- Average of second-valued samples expressed in hours, 0 when empty. -/
def avgHoursOrZero (l : List Int) : ℚ :=
  if l = [] then 0 else (l.map (fun t => ((t : ℚ) / 3600))).sum / (l.length : ℚ)

/-- The repo row built inside the loop (before the post-loop
branch-to-merge fields are filled in): deployment stats from the
inferred workflow, recovery-time average over the (never written)
recovery dict, and
`failure_rate = failures / attempts * 100` guarded by `attempts > 0`. -/
def mkRepoDetail0 (s : Snapshot) (since : Nat) (recov : String → List ℚ) (r : Repo) : RepoDetail :=
  let da := deployAccFor s since r.name
  { name := r.name
    language := r.language.getD "N/A"
    -- `len(data['branches'][repo_name])` / `len(data['contributors'][...])`:
    -- the null case raises in the source and is trapped by `stepRepo`
    -- before this row is built, so `getD []` is only read under `some`.
    branch_count := ((s.branches r.name).getD []).length
    contributor_count := ((s.contributors r.name).getD []).length
    deployment_count := da.count
    deployment_failures := da.failures
    avg_recovery_time := avgOrZero (recov r.name)
    avg_deployment_duration := avgOrZero da.durations
    deployment_durations_count := da.durations.length
    failure_rate :=
      if 0 < da.count then ((da.failures : ℚ) / (da.count : ℚ)) * 100 else 0
    avg_branch_to_merge_time := 0
    branch_merges_count := 0 }

/-- Lines 604-606: fill in the branch-to-merge average and sample count
from the final per-repo map. -/
def addBranchFields (repoBranch : String → List Int) (d : RepoDetail) : RepoDetail :=
  { d with
    avg_branch_to_merge_time := avgHoursOrZero (repoBranch d.name)
    branch_merges_count := (repoBranch d.name).length }

/-- The repo-table formatter entry for `avg_deployment_duration`:
`f'{x:>22.2f}'` — two decimals (half-up here; Python rounds the float
half-even, which agrees on every value this development evaluates),
right-aligned in width 22.  It always renders a number. -/
def ratToFixed2 (x : ℚ) : String :=
  let neg := x < 0
  let y : ℚ := if neg then -x else x
  let c : Nat := (⌊y * 100 + 1 / 2⌋).toNat
  let ip := c / 100
  let fp := c % 100
  let fpStr := if fp < 10 then "0" ++ toString fp else toString fp
  (if neg then "-" else "") ++ toString ip ++ "." ++ fpStr

/-- Right-align in a field of width 22 (space padding on the left). -/
def padTo22 (s : String) : String :=
  if s.length < 22 then String.mk (List.replicate (22 - s.length) ' ') ++ s else s

/-- `repo_formatters['avg_deployment_duration']`. -/
def fmtAvgDeploymentDuration (x : ℚ) : String :=
  padTo22 (ratToFixed2 x)

/-! ### The `analyze_data` pipeline -/

/-- Everything accumulated across the per-repository loop.
`recovery` is `repo_deployment_recovery_times` — created as
`defaultdict(list)` and never appended to anywhere in the source. -/
structure BigAcc where
  cst : CommitState
  pst : PRState
  recovery : String → List ℚ
  repoBranch : String → List Int
  details : List RepoDetail

/-- The loop state at entry: empty counters, empty lists. -/
def initAcc : BigAcc :=
  { cst := ⟨fun _ => 0, fun _ => 0, fun _ => 0, fun _ _ => 0, fun _ => 0⟩
    pst := ⟨fun _ => 0, [], []⟩
    recovery := fun _ => []
    repoBranch := fun _ => []
    details := [] }

/-- One iteration of the `for repo in data['repos']` loop: building the
repo row reads `len(data['branches'][repo_name])` and
`len(data['contributors'][repo_name])` (lines 475-476), which raise when
a failed fetch stored null; then append the row, run the commit loop
(which may abort on a dateless commit), run the PR loop, append the
fresh per-repo sample lists to the global ones and store the
branch-to-merge list under the repo's name. -/
def stepRepo (s : Snapshot) (since : Nat) (acc : BigAcc) (r : Repo) : Except String BigAcc :=
  match s.branches r.name with
  | none => .error "TypeError: object of type NoneType has no len"
  | some _ =>
    match s.contributors r.name with
    | none => .error "TypeError: object of type NoneType has no len"
    | some _ =>
      let d := mkRepoDetail0 s since acc.recovery r
      match processCommits since (s.commit_stats r.name) r.name (s.commits r.name) acc.cst with
      | .error e => .error e
      | .ok cst2 =>
        let p := processPRs since (s.branch_first_commits r.name) (s.pull_requests r.name)
          acc.pst.prc
        .ok { cst := cst2
              pst := ⟨p.prc, acc.pst.mt ++ p.mt, acc.pst.bt ++ p.bt⟩
              recovery := acc.recovery
              repoBranch := fun x => if x = r.name then p.bt else acc.repoBranch x
              details := acc.details ++ [d] }

/-- The whole repository loop; the first raised `KeyError` aborts it. -/
def foldRepos (s : Snapshot) (since : Nat) : List Repo → BigAcc → Except String BigAcc
  | [], acc => .ok acc
  | r :: rs, acc =>
    match stepRepo s since acc r with
    | .error e => .error e
    | .ok acc2 => foldRepos s since rs acc2

/-- The outputs of `analyze_data`: the developer-table columns (as
counters over logins), the sample lists, the repository rows, and the
scalar DORA summaries (`none` = the "no data" print branch). -/
structure Result where
  commit_counts : String → Nat
  lines_added : String → Nat
  lines_deleted : String → Nat
  repos_worked_on : String → String → Nat
  repo_activity : String → Nat
  pr_counts : String → Nat
  pr_reviews : String → Nat
  pr_comments : String → Nat
  pr_merge_times : List Int
  branch_to_merge_times : List Int
  repo_branch_to_merge_times : String → List Int
  repo_details : List RepoDetail
  recovery_times : String → List ℚ
  avg_pr_merge_time : ℚ
  avg_branch_to_merge_time : ℚ
  avg_deployment_duration_summary : Option ℚ
  mean_time_to_recover : Option ℚ
deriving Inhabited

/-- `analyze_data(data, since)`: pre-count reviews and comments, run the
per-repository loop, fill in the post-loop branch-to-merge fields and
the scalar summaries.  An uncaught `KeyError` from the commit loop
aborts the whole call (no tables are produced). -/
def analyzeData (s : Snapshot) (since : Nat) : Except String Result :=
  match foldRepos s since s.repos initAcc with
  | .error e => .error e
  | .ok acc =>
    let details := acc.details.map (addBranchFields acc.repoBranch)
    let durAll := (s.repos.map (fun r => (deployAccFor s since r.name).durations)).flatten
    let recAll := (s.repos.map (fun r => acc.recovery r.name)).flatten
    .ok { commit_counts := acc.cst.cc
          lines_added := acc.cst.la
          lines_deleted := acc.cst.ld
          repos_worked_on := acc.cst.rw
          repo_activity := acc.cst.ra
          pr_counts := acc.pst.prc
          pr_reviews := reviewCounts s since
          pr_comments := commentCounts s since
          pr_merge_times := acc.pst.mt
          branch_to_merge_times := acc.pst.bt
          repo_branch_to_merge_times := acc.repoBranch
          repo_details := details
          recovery_times := acc.recovery
          avg_pr_merge_time := avgHoursOrZero acc.pst.mt
          avg_branch_to_merge_time := avgHoursOrZero acc.pst.bt
          avg_deployment_duration_summary :=
            if durAll = [] then none else some (durAll.sum / (durAll.length : ℚ))
          mean_time_to_recover :=
            if recAll = [] then none else some (recAll.sum / (recAll.length : ℚ)) }

/-! ### Declarative predicates (spec side, for the refinement theorems) -/

/-- The commit-date filter of line 495 once the date is present. -/
def dateOk (since : Nat) (c : CommitInfo) : Bool :=
  match c.authoredDate with
  | some d => decide (since ≤ d)
  | none => false

/-- A commit attributed to `login`: date `>= since`, author = `login`. -/
def qualCommit (since : Nat) (login : String) (c : CommitInfo) : Bool :=
  dateOk since c && c.author == some login

/-- A commit counted in the repo's activity: date `>= since`, any
non-null author. -/
def attrCommit (since : Nat) (c : CommitInfo) : Bool :=
  dateOk since c && c.author.isSome

/-- The claim's count: qualifying commits for `login` across the
in-scope repositories. -/
def specDevCommitCount (s : Snapshot) (since : Nat) (login : String) : Nat :=
  (s.repos.map (fun r => (s.commits r.name).countP (qualCommit since login))).sum

/-- The claim's per-repository activity count. -/
def specRepoActivity (s : Snapshot) (since : Nat) (rn : String) : Nat :=
  (s.commits rn).countP (attrCommit since)

/-- Membership in the developer table: the union of the commit, review
and comment counter keysets (a `defaultdict(int)` key exists iff its
count is positive). -/
def devTableHas (res : Result) (login : String) : Prop :=
  0 < res.commit_counts login ∨ 0 < res.pr_reviews login ∨ 0 < res.pr_comments login

/-- The abort conditions `analyze_data` can hit in this embedding, per
in-scope repository: a null branches or contributors fetch result
(`len(None)`, lines 475-476) or a commit without an authored date
(line 495). -/
def analyzeOkB (s : Snapshot) : Bool :=
  s.repos.all (fun r =>
    (s.branches r.name).isSome && (s.contributors r.name).isSome &&
      (s.commits r.name).all (fun c => c.authoredDate.isSome))

/-- The same snapshot with every commit author nulled and every
CommitStats entry removed — used to state that completion of the
aggregation never depends on either. -/
def stripAuthorsStats (s : Snapshot) : Snapshot :=
  { s with
    commits := fun rn => (s.commits rn).map (fun c => { c with author := none })
    commit_stats := fun _ _ => none }

/-- A deployment attempt for workflow `w`: the `name` and `created_at`
keys present, name matching lower-cased, created `>= since` —
irrespective of the run's status. -/
def isDeployAttempt (w : String) (since : Nat) (run : WorkflowRun) : Bool :=
  match run.name, run.created_at with
  | some n, some c => pyLower n == w && decide (since ≤ c)
  | _, _ => false

/-- The duration sample (minutes) a run contributes: attempts with a
`success` conclusion and an `updated_at` key. -/
def deployDuration (w : String) (since : Nat) (run : WorkflowRun) : Option ℚ :=
  if isDeployAttempt w since run && run.conclusion == some "success" then
    match run.created_at, run.updated_at with
    | some c, some u => some ((((u : Int) - (c : Int) : Int) : ℚ) / 60)
    | _, _ => none
  else none

/-- A review attributed to `u`: resolvable login and timestamp `>= since`. -/
def qualReview (since : Nat) (u : String) (rv : Review) : Bool :=
  rv.user == some u &&
    (match rv.submitted_at with
     | some t => decide (since ≤ t)
     | none => false)

/-- A comment attributed to `u`. -/
def qualComment (since : Nat) (u : String) (cm : Comment) : Bool :=
  cm.user == some u &&
    (match cm.created_at with
     | some t => decide (since ≤ t)
     | none => false)

/-- The claim's review count for user `u`. -/
def specReviewCount (s : Snapshot) (since : Nat) (u : String) : Nat :=
  (s.pr_reviews.map (fun p =>
    if (s.repos.map Repo.name).contains p.1 then
      (p.2.map (fun ol => (ol.getD []).countP (qualReview since u))).sum
    else 0)).sum

/-- The claim's comment count for user `u`. -/
def specCommentCount (s : Snapshot) (since : Nat) (u : String) : Nat :=
  (s.pr_comments.map (fun p =>
    if (s.repos.map Repo.name).contains p.1 then
      (p.2.map (fun ol => (ol.getD []).countP (qualComment since u))).sum
    else 0)).sum

/-- The creation-to-merge sample one PR contributes (seconds), as the
per-PR reading of lines 510-536: resolvable author, inclusion filter,
merged, both bounds `>= since`, duration `<= 720 h`. -/
def prMergeSample (since : Nat) (pr : PullRequest) : Option Int :=
  match pr.user with
  | none => none
  | some _ =>
    if since ≤ pr.created_at ∨ since ≤ pr.updated_at then
      match pr.merged_at with
      | some m =>
        if since ≤ pr.created_at ∧ since ≤ m then
          if ((m : Int) - (pr.created_at : Int)) ≤ 720 * 3600 then
            some ((m : Int) - (pr.created_at : Int))
          else none
        else none
      | none => none
    else none

/-- The branch-to-merge sample one PR contributes (seconds): resolvable
author, inclusion filter, merged, resolvable branch-first-commit date,
duration `<= 2160 h`. -/
def prBranchSample (since : Nat) (bfc : String → Option Nat) (pr : PullRequest) : Option Int :=
  match pr.user with
  | none => none
  | some _ =>
    if since ≤ pr.created_at ∨ since ≤ pr.updated_at then
      match pr.merged_at with
      | some m =>
        match pr.headRef with
        | some br =>
          match bfc br with
          | some d =>
            if ((m : Int) - (d : Int)) ≤ 2160 * 3600 then
              some ((m : Int) - (d : Int))
            else none
          | none => none
        | none => none
      | none => none
    else none

/-! ### Generic fold lemmas -/

theorem bump_apply (f : String → Nat) (k x : String) :
    bump f k x = f x + (if k = x then 1 else 0) := by
  unfold bump
  by_cases h : k = x
  · subst h; simp
  · rw [if_neg h, if_neg (fun hx => h hx.symm)]; omega

theorem foldl_additive {α : Type} (g : (String → Nat) → α → (String → Nat))
    (k : α → String → Nat)
    (hg : ∀ acc a x, g acc a x = acc x + k a x) (l : List α)
    (init : String → Nat) (x : String) :
    (l.foldl g init) x = init x + (l.map (fun a => k a x)).sum := by
  induction l generalizing init with
  | nil => simp
  | cons a t ih =>
    simp only [List.foldl_cons, List.map_cons, List.sum_cons]
    rw [ih, hg]
    omega

theorem foldl_append_samples {α β : Type} (l : List α) (f : α → Option β)
    (init : List β) :
    (l.foldl (fun acc a => acc ++ (f a).toList) init) = init ++ l.filterMap f := by
  induction l generalizing init with
  | nil => simp
  | cons a t ih =>
    simp only [List.foldl_cons]
    rw [ih]
    cases h : f a <;> simp [List.filterMap_cons, h]

/-! ### Deployment-stage lemmas -/

theorem processRun_step (w : String) (since : Nat) (acc : DeployAcc) (run : WorkflowRun) :
    processRun w since acc run =
      { count := acc.count + (if isDeployAttempt w since run then 1 else 0)
        failures := acc.failures +
          (if isDeployAttempt w since run && run.conclusion == some "failure" then 1 else 0)
        durations := acc.durations ++ (deployDuration w since run).toList } := by
  unfold processRun deployDuration isDeployAttempt
  cases hc : run.created_at with
  | none => cases hn : run.name <;> simp
  | some c =>
    cases hn : run.name with
    | none => simp
    | some n =>
      by_cases hw : pyLower n = w
      · by_cases hs : since ≤ c
        · by_cases hsc : run.conclusion = some "success"
          · cases hu : run.updated_at <;> simp [hw, hs, hsc, hu]
          · by_cases hf : run.conclusion = some "failure" <;> simp [hw, hs, hsc, hf]
        · simp [hw, hs]
      · simp [hw]

theorem foldl_processRun (w : String) (since : Nat) (runs : List WorkflowRun) (acc : DeployAcc) :
    runs.foldl (processRun w since) acc =
      { count := acc.count + runs.countP (isDeployAttempt w since)
        failures := acc.failures +
          runs.countP (fun r => isDeployAttempt w since r && r.conclusion == some "failure")
        durations := acc.durations ++ runs.filterMap (deployDuration w since) } := by
  induction runs generalizing acc with
  | nil => simp
  | cons r t ih =>
    simp only [List.foldl_cons]
    rw [processRun_step, ih]
    simp only [DeployAcc.mk.injEq, List.countP_cons, List.filterMap_cons]
    refine ⟨by omega, by omega, ?_⟩
    cases h : deployDuration w since r <;> simp [h]

/-! ### Concrete snapshots for witnesses and counterexamples -/

/-- A snapshot with no data at all (all fetches succeeded, empty). -/
def emptySnapshot : Snapshot :=
  { repos := []
    commits := fun _ => []
    commit_stats := fun _ _ => none
    branches := fun _ => some []
    contributors := fun _ => some []
    pull_requests := fun _ => []
    pr_reviews := []
    pr_comments := []
    branch_first_commits := fun _ _ => none
    workflow_runs := fun _ => none }

/-- A single in-scope repository named "r". -/
def repoR : Repo := ⟨"r", some "Python", 0, 0, 0⟩

/-- The spec's boundary scenario: cutoff 10; commits by alice at 9
(excluded), 10 (boundary, included) and 3610 (included). -/
def w1S : Snapshot :=
  { emptySnapshot with
    repos := [repoR]
    commits := fun rn =>
      if rn = "r" then
        [⟨"s1", some "alice", some 9⟩, ⟨"s2", some "alice", some 10⟩,
         ⟨"s3", some "alice", some 3610⟩]
      else [] }

/-- The analysis result on `w1S` (the pipeline succeeds there). -/
def w1Res : Result :=
  match analyzeData w1S 10 with
  | .ok res => res
  | .error _ => default

/-- An in-progress run of a workflow named "CI", created at the cutoff. -/
def cexRun : WorkflowRun := ⟨some "CI", "in_progress", none, some 10, none⟩

/-- A snapshot whose only repository has exactly one workflow run, the
non-completed `cexRun`. -/
def c2S : Snapshot :=
  { emptySnapshot with
    repos := [repoR]
    workflow_runs := fun rn => if rn = "r" then some [cexRun] else none }

/-- The analysis result on `c2S`. -/
def c2Res : Result :=
  match analyzeData c2S 10 with
  | .ok res => res
  | .error _ => default

/-- A snapshot whose only commit lacks the authored-date field. -/
def c3S : Snapshot :=
  { emptySnapshot with
    repos := [repoR]
    commits := fun rn => if rn = "r" then [⟨"s1", some "alice", none⟩] else [] }

/-- A snapshot whose only repository has an empty workflow-run list. -/
def c8S : Snapshot :=
  { emptySnapshot with
    repos := [repoR]
    workflow_runs := fun rn => if rn = "r" then some [] else none }

/-- The analysis result on `c8S`. -/
def c8Res : Result :=
  match analyzeData c8S 0 with
  | .ok res => res
  | .error _ => default

/-! ### Claim C9 — rate-limit backoff -/

/-- C9: the computed sleep `max(1, reset_epoch - now + 1)` is always at
least 1 second (in particular when the reported reset epoch lies in the
past), and a rate-limited response is the only case `make_request`
retries: after any number of rate-limited responses the loop is still
retrying (no attempt ceiling), and the next non-rate-limited answer to
the same request is returned. -/
theorem rate_limit_sleep_and_retry :
    (∀ resetEpoch now : Int, 1 ≤ rateLimitSleep resetEpoch now) ∧
    (∀ l : List (HttpResp × Int),
      (∀ p ∈ l, ∃ e, p.1 = HttpResp.rateLimited e) → makeRequestSteps l = none) ∧
    (∀ (l : List (HttpResp × Int)) (body : String) (t : Int),
      (∀ p ∈ l, ∃ e, p.1 = HttpResp.rateLimited e) →
      makeRequestSteps (l ++ [(HttpResp.success body, t)]) = some (some body)) := by
  refine ⟨fun r n => le_max_left _ _, ?_, ?_⟩
  · intro l h
    induction l with
    | nil => rfl
    | cons p t ih =>
      obtain ⟨e, he⟩ := h p (List.mem_cons_self p t)
      obtain ⟨r1, t1⟩ := p
      simp only at he
      subst he
      exact ih (fun q hq => h q (List.mem_cons_of_mem _ hq))
  · intro l body t h
    induction l with
    | nil => rfl
    | cons p t2 ih =>
      obtain ⟨e, he⟩ := h p (List.mem_cons_self p t2)
      obtain ⟨r1, t1⟩ := p
      simp only at he
      subst he
      exact ih (fun q hq => h q (List.mem_cons_of_mem _ hq))

/-- C9 witness: a reset epoch 0 that lies before the current time 1000
still sleeps at least 1 second; two rate-limited responses leave the
loop retrying; a success after a rate-limited response is returned. -/
theorem rate_limit_sleep_and_retry_witness :
    1 ≤ rateLimitSleep 0 1000 ∧
    makeRequestSteps [(HttpResp.rateLimited 0, 1000), (HttpResp.rateLimited 5, 1001)] = none ∧
    makeRequestSteps [(HttpResp.rateLimited 0, 1000), (HttpResp.success "ok", 1002)] =
      some (some "ok") :=
  ⟨rate_limit_sleep_and_retry.1 0 1000,
   rate_limit_sleep_and_retry.2.1 _
     (by intro p hp; simp only [List.mem_cons, List.mem_singleton] at hp
         rcases hp with h | h | h
         · subst h; exact ⟨0, rfl⟩
         · subst h; exact ⟨5, rfl⟩
         · cases h),
   rate_limit_sleep_and_retry.2.2 [(HttpResp.rateLimited 0, 1000)] "ok" 1002
     (by intro p hp; simp only [List.mem_singleton] at hp; subst hp; exact ⟨0, rfl⟩)⟩

/-! ### Claim C2 — deployment attempts -/

/-- C2 counterexample: in `c2S` the inferred workflow of repository "r"
is "ci" and its only run is in progress (`status = "in_progress"`, not
`"completed"`), yet the repository row counts 1 deployment attempt —
the source never checks the run's status, refuting the "only completed
runs are counted" direction of the claim. -/
theorem deployment_attempt_counts_noncompleted_run :
    analyzeData c2S 10 = Except.ok c2Res ∧
    specificWorkflow c2S "r" = some "ci" ∧
    c2S.workflow_runs "r" = some [cexRun] ∧
    cexRun.status = "in_progress" ∧
    cexRun.status ≠ "completed" ∧
    (c2Res.repo_details.map RepoDetail.deployment_count) = [1] := by
  refine ⟨rfl, by decide, rfl, rfl, by decide, by decide⟩

/-- C2 (amended): with an inferred workflow name `w`, a workflow run is
counted as a deployment attempt iff it carries the `name` and
`created_at` keys, its lower-cased name equals `w` and it was created
`>= since` — regardless of its status; among counted attempts, a run
with conclusion `success` and an `updated_at` key adds
`(updated_at - created_at)` minutes to the duration samples, and a run
with conclusion `failure` increments the failure counter. -/
theorem deployment_attempt_characterization (w : String) (since : Nat)
    (runs : List WorkflowRun) :
    (processRuns w since runs).count = runs.countP (isDeployAttempt w since) ∧
    (processRuns w since runs).failures =
      runs.countP (fun r => isDeployAttempt w since r && r.conclusion == some "failure") ∧
    (processRuns w since runs).durations = runs.filterMap (deployDuration w since) := by
  unfold processRuns
  rw [foldl_processRun]
  exact ⟨by simp, by simp, by simp⟩

/-! ### PR-stage lemmas -/

theorem processPR_step (since : Nat) (bfc : String → Option Nat) (acc : PRState)
    (pr : PullRequest) :
    processPR since bfc acc pr =
      { prc :=
          match pr.user with
          | some a =>
            if since ≤ pr.created_at ∨ since ≤ pr.updated_at then bump acc.prc a else acc.prc
          | none => acc.prc
        mt := acc.mt ++ (prMergeSample since pr).toList
        bt := acc.bt ++ (prBranchSample since bfc pr).toList } := by
  unfold processPR prMergeSample prBranchSample
  cases hu : pr.user with
  | none => simp
  | some a =>
    by_cases hi : since ≤ pr.created_at ∨ since ≤ pr.updated_at
    · simp only [hi, if_pos]
      congr 1
      · split
        · split_ifs with h1 h2 <;> simp
        · simp
      · split
        · split
          · split
            · split_ifs with h1 <;> simp
            · simp
          · simp
        · simp
    · simp [hi]

theorem foldl_processPR_samples (since : Nat) (bfc : String → Option Nat)
    (prs : List PullRequest) (acc : PRState) :
    (prs.foldl (processPR since bfc) acc).mt = acc.mt ++ prs.filterMap (prMergeSample since) ∧
    (prs.foldl (processPR since bfc) acc).bt =
      acc.bt ++ prs.filterMap (prBranchSample since bfc) := by
  induction prs generalizing acc with
  | nil => simp
  | cons pr t ih =>
    simp only [List.foldl_cons, processPR_step]
    obtain ⟨ih1, ih2⟩ := ih
      { prc :=
          match pr.user with
          | some a =>
            if since ≤ pr.created_at ∨ since ≤ pr.updated_at then bump acc.prc a else acc.prc
          | none => acc.prc
        mt := acc.mt ++ (prMergeSample since pr).toList
        bt := acc.bt ++ (prBranchSample since bfc pr).toList }
    refine ⟨?_, ?_⟩
    · rw [ih1]
      cases h : prMergeSample since pr <;> simp [List.filterMap_cons, h]
    · rw [ih2]
      cases h : prBranchSample since bfc pr <;> simp [List.filterMap_cons, h]

/-! ### Claims C4 and C5 — merge-duration policies -/

/-- C4: the per-repo merge-duration samples are exactly the PRs'
`prMergeSample`s, and for a merged PR with a resolvable author passing
the inclusion filter a creation-to-merge sample is recorded iff
`created_at >= since`, `merged_at >= since` and the duration
`merged_at - created_at` is at most 720 hours; a recorded sample equals
that duration, so a PR whose duration exceeds 720 hours contributes
nothing. -/
theorem pr_merge_duration_policy :
    (∀ (since : Nat) (bfc : String → Option Nat) (prs : List PullRequest)
       (prc0 : String → Nat),
      (processPRs since bfc prs prc0).mt = prs.filterMap (prMergeSample since)) ∧
    (∀ (since : Nat) (pr : PullRequest) (m : Nat),
      pr.user.isSome = true → pr.merged_at = some m →
      (since ≤ pr.created_at ∨ since ≤ pr.updated_at) →
      (((prMergeSample since pr).isSome ↔
          (since ≤ pr.created_at ∧ since ≤ m ∧
            (m : Int) - (pr.created_at : Int) ≤ 720 * 3600)) ∧
        ∀ d, prMergeSample since pr = some d → d = (m : Int) - (pr.created_at : Int))) := by
  constructor
  · intro since bfc prs prc0
    exact ((foldl_processPR_samples since bfc prs ⟨prc0, [], []⟩).1).trans (by simp)
  · intro since pr m hu hm hi
    obtain ⟨a, ha⟩ := Option.isSome_iff_exists.mp hu
    unfold prMergeSample
    rw [ha, hm]
    simp only [hi, if_pos]
    by_cases hb : since ≤ pr.created_at ∧ since ≤ m
    · by_cases hd : ((m : Int) - (pr.created_at : Int)) ≤ 720 * 3600 <;>
        simp [hb, hd]
    · simp [hb]
      tauto

/-- A merged PR inside the window: created at 14, merged 9 h later. -/
def prA : PullRequest := ⟨1, some "alice", 14, 14, some 32414, none, "closed"⟩

/-- A merged PR whose duration is 800 h (an outlier past the 720 h cap). -/
def prB : PullRequest := ⟨2, some "bob", 14, 14, some 2880014, none, "closed"⟩

/-- C4 witness: the 9 h PR is sampled with value 9 h = 32400 s, the
800 h PR contributes no sample, and the per-repo list agrees. -/
theorem pr_merge_duration_policy_witness :
    ((prMergeSample 10 prA).isSome ↔
      (10 ≤ prA.created_at ∧ 10 ≤ 32414 ∧
        ((32414 : Nat) : Int) - (prA.created_at : Int) ≤ 720 * 3600)) ∧
    prMergeSample 10 prA = some 32400 ∧
    prMergeSample 10 prB = none ∧
    (processPRs 10 (fun _ => none) [prA, prB] (fun _ => 0)).mt =
      [prA, prB].filterMap (prMergeSample 10) :=
  ⟨(pr_merge_duration_policy.2 10 prA 32414 (by decide) rfl (by decide)).1,
   by decide, by decide,
   pr_merge_duration_policy.1 10 (fun _ => none) [prA, prB] (fun _ => 0)⟩

/-- C5: the per-repo branch-to-merge samples are exactly the PRs'
`prBranchSample`s, and for a merged PR with a resolvable author passing
the inclusion filter a branch-to-merge sample is recorded iff the PR's
head branch resolves to a branch-first-commit date and the duration from
that date to `merged_at` is at most 2160 hours; a recorded sample equals
that duration. -/
theorem branch_to_merge_policy :
    (∀ (since : Nat) (bfc : String → Option Nat) (prs : List PullRequest)
       (prc0 : String → Nat),
      (processPRs since bfc prs prc0).bt = prs.filterMap (prBranchSample since bfc)) ∧
    (∀ (since : Nat) (bfc : String → Option Nat) (pr : PullRequest) (m : Nat),
      pr.user.isSome = true → pr.merged_at = some m →
      (since ≤ pr.created_at ∨ since ≤ pr.updated_at) →
      (((prBranchSample since bfc pr).isSome ↔
          (∃ br d0, pr.headRef = some br ∧ bfc br = some d0 ∧
            (m : Int) - (d0 : Int) ≤ 2160 * 3600)) ∧
        ∀ t, prBranchSample since bfc pr = some t →
          ∃ br d0, pr.headRef = some br ∧ bfc br = some d0 ∧
            t = (m : Int) - (d0 : Int))) := by
  constructor
  · intro since bfc prs prc0
    exact ((foldl_processPR_samples since bfc prs ⟨prc0, [], []⟩).2).trans (by simp)
  · intro since bfc pr m hu hm hi
    obtain ⟨a, ha⟩ := Option.isSome_iff_exists.mp hu
    unfold prBranchSample
    rw [ha, hm]
    simp only [hi, if_pos]
    cases hr : pr.headRef with
    | none => simp
    | some br =>
      cases hf : bfc br with
      | none => simp [hf]
      | some d0 =>
        by_cases hd : ((m : Int) - (d0 : Int)) ≤ 2160 * 3600
        · simp only [hf, if_pos hd, Option.isSome_some, true_iff, Option.some.injEq]
          refine ⟨⟨br, d0, rfl, hf, hd⟩, ?_⟩
          intro t ht
          exact ⟨br, d0, rfl, hf, ht.symm⟩
        · simp only [hf, if_neg hd, Option.isSome_none]
          constructor
          · simp only [Bool.false_eq_true, false_iff]
            rintro ⟨br2, d2, hbr2, hf2, hd2⟩
            cases hbr2
            rw [hf] at hf2
            cases hf2
            exact hd hd2
          · intro t ht
            cases ht

/-- The branch-first-commit map used in the C5 witness: branch "feat"
resolves to timestamp 4. -/
def bfcW : String → Option Nat := fun br => if br = "feat" then some 4 else none

/-- A merged PR on branch "feat": merged at 1000, branch start 4. -/
def prC : PullRequest := ⟨3, some "carol", 14, 14, some 1000, some "feat", "closed"⟩

/-- A merged PR on an unresolvable branch. -/
def prD : PullRequest := ⟨4, some "dave", 14, 14, some 1000, some "gone", "closed"⟩

/-- C5 witness: the resolvable in-bounds branch yields the sample 996 s,
the unresolvable branch yields none, and the per-repo list agrees. -/
theorem branch_to_merge_policy_witness :
    ((prBranchSample 10 bfcW prC).isSome ↔
      (∃ br d0, prC.headRef = some br ∧ bfcW br = some d0 ∧
        ((1000 : Nat) : Int) - (d0 : Int) ≤ 2160 * 3600)) ∧
    prBranchSample 10 bfcW prC = some 996 ∧
    prBranchSample 10 bfcW prD = none ∧
    (processPRs 10 bfcW [prC, prD] (fun _ => 0)).bt =
      [prC, prD].filterMap (prBranchSample 10 bfcW) :=
  ⟨(branch_to_merge_policy.2 10 bfcW prC 1000 (by decide) rfl (by decide)).1,
   by decide, by decide,
   branch_to_merge_policy.1 10 bfcW [prC, prD] (fun _ => 0)⟩

/-! ### Review / comment counting lemmas and claim C7 -/

theorem sum_map_ite {α : Type} (l : List α) (p : α → Bool) :
    (l.map (fun a => if p a then 1 else 0)).sum = l.countP p := by
  induction l with
  | nil => simp
  | cons a t ih =>
    simp only [List.map_cons, List.sum_cons, List.countP_cons, ih]
    cases h : p a
    · simp [h]
    · simp [h]
      omega

theorem reviewStep_apply (since : Nat) (acc : String → Nat) (rv : Review) (x : String) :
    reviewStep since acc rv x = acc x + (if qualReview since x rv then 1 else 0) := by
  unfold reviewStep qualReview
  cases hu : rv.user with
  | none => simp
  | some u =>
    cases ht : rv.submitted_at with
    | none => simp
    | some t =>
      by_cases hs : since ≤ t <;> simp [hs, bump_apply]

theorem commentStep_apply (since : Nat) (acc : String → Nat) (cm : Comment) (x : String) :
    commentStep since acc cm x = acc x + (if qualComment since x cm then 1 else 0) := by
  unfold commentStep qualComment
  cases hu : cm.user with
  | none => simp
  | some u =>
    cases ht : cm.created_at with
    | none => simp
    | some t =>
      by_cases hs : since ≤ t <;> simp [hs, bump_apply]

theorem reviewFoldInner (since : Nat) (l : List Review) (acc : String → Nat) (x : String) :
    (l.foldl (reviewStep since) acc) x = acc x + l.countP (qualReview since x) := by
  rw [foldl_additive (reviewStep since) (fun rv y => if qualReview since y rv then 1 else 0)
    (fun acc2 rv y => reviewStep_apply since acc2 rv y) l acc x, sum_map_ite]

theorem commentFoldInner (since : Nat) (l : List Comment) (acc : String → Nat) (x : String) :
    (l.foldl (commentStep since) acc) x = acc x + l.countP (qualComment since x) := by
  rw [foldl_additive (commentStep since) (fun cm y => if qualComment since y cm then 1 else 0)
    (fun acc2 cm y => commentStep_apply since acc2 cm y) l acc x, sum_map_ite]

theorem reviewFoldMid (since : Nat) (prLists : List (Option (List Review)))
    (acc : String → Nat) (x : String) :
    (prLists.foldl (fun acc2 ol => (ol.getD []).foldl (reviewStep since) acc2) acc) x
      = acc x + (prLists.map (fun ol => (ol.getD []).countP (qualReview since x))).sum := by
  rw [foldl_additive _ (fun ol y => (ol.getD []).countP (qualReview since y))
    (fun acc2 ol y => reviewFoldInner since (ol.getD []) acc2 y) prLists acc x]

theorem commentFoldMid (since : Nat) (prLists : List (Option (List Comment)))
    (acc : String → Nat) (x : String) :
    (prLists.foldl (fun acc2 ol => (ol.getD []).foldl (commentStep since) acc2) acc) x
      = acc x + (prLists.map (fun ol => (ol.getD []).countP (qualComment since x))).sum := by
  rw [foldl_additive _ (fun ol y => (ol.getD []).countP (qualComment since y))
    (fun acc2 ol y => commentFoldInner since (ol.getD []) acc2 y) prLists acc x]

theorem reviewCounts_eq (s : Snapshot) (since : Nat) (u : String) :
    reviewCounts s since u = specReviewCount s since u := by
  unfold reviewCounts specReviewCount
  rw [foldl_additive _
    (fun p y =>
      if (s.repos.map Repo.name).contains p.1 then
        (p.2.map (fun ol => (ol.getD []).countP (qualReview since y))).sum
      else 0)
    (fun acc p y => by
      by_cases hc : (s.repos.map Repo.name).contains p.1
      · simp only [hc, if_pos, reviewFoldMid]
      · simp only [if_neg hc, Nat.add_zero])
    s.pr_reviews (fun _ => 0) u]
  simp

theorem commentCounts_eq (s : Snapshot) (since : Nat) (u : String) :
    commentCounts s since u = specCommentCount s since u := by
  unfold commentCounts specCommentCount
  rw [foldl_additive _
    (fun p y =>
      if (s.repos.map Repo.name).contains p.1 then
        (p.2.map (fun ol => (ol.getD []).countP (qualComment since y))).sum
      else 0)
    (fun acc p y => by
      by_cases hc : (s.repos.map Repo.name).contains p.1
      · simp only [hc, if_pos, commentFoldMid]
      · simp only [if_neg hc, Nat.add_zero])
    s.pr_comments (fun _ => 0) u]
  simp

/-- C7: for every user, the review counter equals the number of reviews
in in-scope repositories with a resolvable user login and
`submitted_at >= since`, and likewise for comments with `created_at`;
changing the snapshot's pull-request lists (hence which PRs pass the
PR-inclusion filter) changes neither counter. -/
theorem review_comment_attribution (s : Snapshot) (since : Nat) (u : String) :
    reviewCounts s since u = specReviewCount s since u ∧
    commentCounts s since u = specCommentCount s since u ∧
    (∀ q : String → List PullRequest,
      reviewCounts { s with pull_requests := q } since u = reviewCounts s since u ∧
      commentCounts { s with pull_requests := q } since u = commentCounts s since u) :=
  ⟨reviewCounts_eq s since u, commentCounts_eq s since u, fun _ => ⟨rfl, rfl⟩⟩

/-! ### Commit-stage and pipeline lemmas -/

/-- Whether an `Except` computation finished without raising. -/
def isOkE {ε α : Type} : Except ε α → Bool
  | .ok _ => true
  | .error _ => false

theorem processCommit_ok_spec (since : Nat) (stats : String → Option Stats) (rn : String)
    (st : CommitState) (c : CommitInfo) (st2 : CommitState)
    (h : processCommit since stats rn st c = Except.ok st2) :
    (∀ x, st2.cc x = st.cc x + (if qualCommit since x c then 1 else 0)) ∧
    (∀ x, st2.ra x = st.ra x + (if rn = x ∧ attrCommit since c then 1 else 0)) := by
  unfold processCommit at h
  cases hd : c.authoredDate with
  | none => rw [hd] at h; cases h
  | some d =>
    rw [hd] at h
    injection h with h
    subst h
    by_cases hs : since ≤ d
    · cases ha : c.author with
      | none =>
        constructor <;> intro x <;>
          simp [hs, ha, qualCommit, attrCommit, dateOk, hd]
      | some a =>
        cases hst : stats c.sha with
        | none =>
          constructor <;> intro x
          · simp only [hs, if_pos, ha, hst, bump_apply]
            simp [qualCommit, dateOk, hd, hs, ha]
          · simp only [hs, if_pos, ha, hst, bump_apply]
            simp [attrCommit, dateOk, hd, hs, ha]
        | some sd =>
          constructor <;> intro x
          · simp only [hs, if_pos, ha, hst, bumpN, bump_apply]
            simp [qualCommit, dateOk, hd, hs, ha]
          · simp only [hs, if_pos, ha, hst, bumpN, bump_apply]
            simp [attrCommit, dateOk, hd, hs, ha]
    · constructor <;> intro x <;>
        simp [hs, qualCommit, attrCommit, dateOk, hd]

theorem processCommits_ok_spec (since : Nat) (stats : String → Option Stats) (rn : String)
    (l : List CommitInfo) (st st2 : CommitState)
    (h : processCommits since stats rn l st = Except.ok st2) :
    (∀ x, st2.cc x = st.cc x + l.countP (qualCommit since x)) ∧
    (∀ x, st2.ra x = st.ra x + (if rn = x then l.countP (attrCommit since) else 0)) := by
  induction l generalizing st with
  | nil =>
    unfold processCommits at h
    injection h with h
    subst h
    constructor <;> intro x <;> simp
  | cons c cs ih =>
    unfold processCommits at h
    cases hp : processCommit since stats rn st c with
    | error e => rw [hp] at h; cases h
    | ok st1 =>
      rw [hp] at h
      obtain ⟨p1, p2⟩ := processCommit_ok_spec since stats rn st c st1 hp
      obtain ⟨i1, i2⟩ := ih st1 h
      constructor <;> intro x
      · rw [i1, p1, List.countP_cons]
        cases hq : qualCommit since x c <;> (simp [hq]; try omega)
      · rw [i2, p2, List.countP_cons]
        by_cases hrx : rn = x
        · cases hq : attrCommit since c <;> (simp [hrx, hq]; try omega)
        · simp [hrx]

theorem processCommit_err_date (since : Nat) (stats : String → Option Stats) (rn : String)
    (st : CommitState) (c : CommitInfo) :
    isOkE (processCommit since stats rn st c) = c.authoredDate.isSome := by
  unfold processCommit
  cases hd : c.authoredDate <;> simp [isOkE]

theorem processCommits_isOk (since : Nat) (stats : String → Option Stats) (rn : String)
    (l : List CommitInfo) (st : CommitState) :
    isOkE (processCommits since stats rn l st) = l.all (fun c => c.authoredDate.isSome) := by
  induction l generalizing st with
  | nil => simp [processCommits, isOkE]
  | cons c cs ih =>
    unfold processCommits
    have hstep := processCommit_err_date since stats rn st c
    cases hp : processCommit since stats rn st c with
    | error e =>
      rw [hp] at hstep
      simp only [isOkE] at hstep
      simp [isOkE, ← hstep]
    | ok st1 =>
      rw [hp] at hstep
      simp only [isOkE] at hstep
      simp [ih, ← hstep]

theorem stepRepo_ok_spec (s : Snapshot) (since : Nat) (acc : BigAcc) (r : Repo)
    (acc2 : BigAcc) (h : stepRepo s since acc r = Except.ok acc2) :
    (∀ x, acc2.cst.cc x = acc.cst.cc x + (s.commits r.name).countP (qualCommit since x)) ∧
    (∀ x, acc2.cst.ra x =
      acc.cst.ra x + (if r.name = x then (s.commits r.name).countP (attrCommit since) else 0)) ∧
    acc2.recovery = acc.recovery ∧
    acc2.details = acc.details ++ [mkRepoDetail0 s since acc.recovery r] := by
  unfold stepRepo at h
  cases hb : s.branches r.name with
  | none => rw [hb] at h; cases h
  | some bl =>
    rw [hb] at h
    cases hc : s.contributors r.name with
    | none => rw [hc] at h; cases h
    | some cl =>
      rw [hc] at h
      cases hp : processCommits since (s.commit_stats r.name) r.name (s.commits r.name)
          acc.cst with
      | error e => rw [hp] at h; cases h
      | ok cst2 =>
        rw [hp] at h
        injection h with h
        subst h
        obtain ⟨p1, p2⟩ := processCommits_ok_spec _ _ _ _ _ _ hp
        exact ⟨p1, p2, rfl, rfl⟩

theorem stepRepo_isOk (s : Snapshot) (since : Nat) (acc : BigAcc) (r : Repo) :
    isOkE (stepRepo s since acc r) =
      ((s.branches r.name).isSome && (s.contributors r.name).isSome &&
        (s.commits r.name).all (fun c => c.authoredDate.isSome)) := by
  unfold stepRepo
  cases hb : s.branches r.name with
  | none => simp [isOkE]
  | some bl =>
    cases hc : s.contributors r.name with
    | none => simp [isOkE]
    | some cl =>
      simp only [Option.isSome_some, Bool.and_true, Bool.true_and]
      have hstep := processCommits_isOk since (s.commit_stats r.name) r.name
        (s.commits r.name) acc.cst
      cases hp : processCommits since (s.commit_stats r.name) r.name (s.commits r.name)
          acc.cst with
      | error e =>
        rw [hp] at hstep
        simp only [isOkE] at hstep
        simp [isOkE, ← hstep]
      | ok cst2 =>
        rw [hp] at hstep
        simp only [isOkE] at hstep
        simp [isOkE, ← hstep]

theorem foldRepos_ok_spec (s : Snapshot) (since : Nat) (l : List Repo) (acc acc2 : BigAcc)
    (h : foldRepos s since l acc = Except.ok acc2) :
    (∀ x, acc2.cst.cc x =
      acc.cst.cc x + (l.map (fun r => (s.commits r.name).countP (qualCommit since x))).sum) ∧
    (∀ x, acc2.cst.ra x =
      acc.cst.ra x +
        (l.map (fun r =>
          if r.name = x then (s.commits r.name).countP (attrCommit since) else 0)).sum) ∧
    acc2.recovery = acc.recovery ∧
    acc2.details = acc.details ++ l.map (fun r => mkRepoDetail0 s since acc.recovery r) := by
  induction l generalizing acc with
  | nil =>
    unfold foldRepos at h
    injection h with h
    subst h
    exact ⟨fun x => by simp, fun x => by simp, rfl, by simp⟩
  | cons r rs ih =>
    unfold foldRepos at h
    cases hp : stepRepo s since acc r with
    | error e => rw [hp] at h; cases h
    | ok acc1 =>
      rw [hp] at h
      obtain ⟨p1, p2, p3, p4⟩ := stepRepo_ok_spec s since acc r acc1 hp
      obtain ⟨i1, i2, i3, i4⟩ := ih acc1 h
      refine ⟨?_, ?_, ?_, ?_⟩
      · intro x
        rw [i1, p1]
        simp only [List.map_cons, List.sum_cons]
        omega
      · intro x
        rw [i2, p2]
        simp only [List.map_cons, List.sum_cons]
        omega
      · rw [i3, p3]
      · rw [i4, p4, p3]
        simp [List.append_assoc]

theorem foldRepos_isOk (s : Snapshot) (since : Nat) (l : List Repo) (acc : BigAcc) :
    isOkE (foldRepos s since l acc) =
      l.all (fun r =>
        (s.branches r.name).isSome && (s.contributors r.name).isSome &&
          (s.commits r.name).all (fun c => c.authoredDate.isSome)) := by
  induction l generalizing acc with
  | nil => simp [foldRepos, isOkE]
  | cons r rs ih =>
    unfold foldRepos
    have hstep := stepRepo_isOk s since acc r
    cases hp : stepRepo s since acc r with
    | error e =>
      rw [hp] at hstep
      simp only [isOkE] at hstep
      simp [isOkE, ← hstep]
    | ok acc1 =>
      rw [hp] at hstep
      simp only [isOkE] at hstep
      simp [ih, ← hstep]

theorem analyzeData_isOk (s : Snapshot) (since : Nat) :
    isOkE (analyzeData s since) = analyzeOkB s := by
  unfold analyzeData
  have hstep := foldRepos_isOk s since s.repos initAcc
  cases hp : foldRepos s since s.repos initAcc with
  | error e =>
    rw [hp] at hstep
    simp only [isOkE] at hstep
    simp [isOkE, analyzeOkB, ← hstep]
  | ok acc =>
    rw [hp] at hstep
    simp only [isOkE] at hstep
    simp [isOkE, analyzeOkB, ← hstep]

theorem analyzeData_destruct (s : Snapshot) (since : Nat) (res : Result)
    (h : analyzeData s since = Except.ok res) :
    ∃ acc, foldRepos s since s.repos initAcc = Except.ok acc ∧
      res.commit_counts = acc.cst.cc ∧
      res.repo_activity = acc.cst.ra ∧
      res.repo_details = acc.details.map (addBranchFields acc.repoBranch) ∧
      res.recovery_times = acc.recovery ∧
      res.mean_time_to_recover =
        (if (s.repos.map (fun r => acc.recovery r.name)).flatten = [] then none
         else some (((s.repos.map (fun r => acc.recovery r.name)).flatten).sum /
           (((s.repos.map (fun r => acc.recovery r.name)).flatten).length : ℚ))) ∧
      res.avg_deployment_duration_summary =
        (if (s.repos.map (fun r => (deployAccFor s since r.name).durations)).flatten = [] then
           none
         else some
           ((((s.repos.map (fun r => (deployAccFor s since r.name).durations)).flatten).sum) /
            ((((s.repos.map
              (fun r => (deployAccFor s since r.name).durations)).flatten).length : ℚ)))) := by
  unfold analyzeData at h
  cases hp : foldRepos s since s.repos initAcc with
  | error e => rw [hp] at h; cases h
  | ok acc =>
    rw [hp] at h
    injection h with h
    subst h
    exact ⟨acc, rfl, rfl, rfl, rfl, rfl, rfl, rfl⟩

theorem sum_ite_nodup (l : List Repo) (g : String → Nat) (r : Repo) (hr : r ∈ l)
    (hnd : (l.map Repo.name).Nodup) :
    (l.map (fun r2 => if r2.name = r.name then g r2.name else 0)).sum = g r.name := by
  induction l with
  | nil => cases hr
  | cons a t ih =>
    simp only [List.map_cons, List.sum_cons]
    rcases List.mem_cons.mp hr with hra | hrt
    · subst hra
      rw [if_pos rfl]
      have hnotin : r.name ∉ t.map Repo.name := (List.nodup_cons.mp hnd).1
      have hz : (t.map (fun r2 => if r2.name = r.name then g r2.name else 0)).sum = 0 := by
        apply List.sum_eq_zero
        intro y hy
        obtain ⟨r2, hr2, hy2⟩ := List.mem_map.mp hy
        rw [← hy2, if_neg]
        intro heq
        exact hnotin (heq ▸ List.mem_map_of_mem Repo.name hr2)
      rw [hz, Nat.add_zero]
    · have hanotr : a.name ≠ r.name := by
        intro he
        exact (List.nodup_cons.mp hnd).1 (he ▸ List.mem_map_of_mem Repo.name hrt)
      rw [if_neg hanotr, ih hrt (List.nodup_cons.mp hnd).2, Nat.zero_add]

theorem flatten_map_nil {α : Type} (l : List α) :
    (l.map (fun _ => ([] : List ℚ))).flatten = [] := by
  induction l <;> simp [*]

/-! ### Formatter lemmas -/

theorem padTo22_length (str : String) : 22 ≤ (padTo22 str).length := by
  unfold padTo22
  split
  · rename_i hlt
    simp only [String.length_append]
    simp only [String.length]
    simp only [List.length_replicate]
    omega
  · omega

theorem fmt_ne_no_data (x : ℚ) : fmtAvgDeploymentDuration x ≠ "no data" := by
  intro he
  have hlen := padTo22_length (ratToFixed2 x)
  unfold fmtAvgDeploymentDuration at he
  rw [he] at hlen
  have h7 : ("no data" : String).length = 7 := rfl
  omega

theorem ratToFixed2_zero : ratToFixed2 0 = "0.00" := by
  unfold ratToFixed2
  norm_num
  decide

theorem fmtAvgDeploymentDuration_zero :
    fmtAvgDeploymentDuration 0 = "                  0.00" := by
  unfold fmtAvgDeploymentDuration
  rw [ratToFixed2_zero]
  decide

/-- With an empty (or absent) workflow-run list, a repository gets no
inferred workflow and hence zero deployment counters and no samples. -/
theorem deployAccFor_zero (s : Snapshot) (since : Nat) (rn : String)
    (hz : s.workflow_runs rn = some [] ∨ s.workflow_runs rn = none) :
    deployAccFor s since rn = ⟨0, 0, []⟩ := by
  rcases hz with hz | hz <;> simp [deployAccFor, specificWorkflow, hz]

theorem flatten_eq_nil_of_all_nil {α : Type} (l : List α) (f : α → List ℚ)
    (h : ∀ a ∈ l, f a = []) : (l.map f).flatten = [] := by
  induction l with
  | nil => simp
  | cons a t ih =>
    simp [h a (List.mem_cons_self a t), ih (fun b hb => h b (List.mem_cons_of_mem _ hb))]

/-! ### Claim C1 — commit attribution -/

/-- C1: when the aggregation completes, each login's commit count equals
the number of commits with authored date `>= since` and that author
across the in-scope repositories (so a login with such a commit appears
in the developer table), and each repository's activity counter equals
the number of its commits with authored date `>= since` and a non-null
author; earlier or author-less commits contribute nothing. -/
theorem commit_attribution (s : Snapshot) (since : Nat) (res : Result)
    (h : analyzeData s since = Except.ok res)
    (hnd : (s.repos.map Repo.name).Nodup) (login : String) :
    res.commit_counts login = specDevCommitCount s since login ∧
    (0 < specDevCommitCount s since login → devTableHas res login) ∧
    (∀ r ∈ s.repos, res.repo_activity r.name = specRepoActivity s since r.name) := by
  obtain ⟨acc, hfold, hcc, hra, hdet, hrec, hmttr, hsum⟩ := analyzeData_destruct s since res h
  obtain ⟨f1, f2, f3, f4⟩ := foldRepos_ok_spec s since s.repos initAcc acc hfold
  refine ⟨?_, ?_, ?_⟩
  · rw [hcc, f1 login]
    simp [initAcc, specDevCommitCount]
  · intro hpos
    unfold devTableHas
    left
    rw [hcc, f1 login]
    unfold specDevCommitCount at hpos
    simp only [initAcc]
    omega
  · intro r hr
    rw [hra, f2 r.name]
    simp only [initAcc, Nat.zero_add]
    exact sum_ite_nodup s.repos (fun n => (s.commits n).countP (attrCommit since)) r hr hnd

/-- C1 witness: the spec's boundary scenario — commits at 9, 10 and 3610
with cutoff 10 give alice a commit count of 2 and repo "r" activity 2. -/
theorem commit_attribution_witness :
    analyzeData w1S 10 = Except.ok w1Res ∧
    w1Res.commit_counts "alice" = 2 ∧ w1Res.repo_activity "r" = 2 := by
  have h0 : analyzeData w1S 10 = Except.ok w1Res := rfl
  have hc := commit_attribution w1S 10 w1Res h0 (by decide) "alice"
  refine ⟨h0, ?_, ?_⟩
  · rw [hc.1]
    decide
  · exact (hc.2.2 repoR (by decide)).trans (by decide)

/-! ### Claim C3 — missing-field handling -/

/-- C3 counterexample: a snapshot whose only commit has no authored date
makes `analyze_data` raise (the source reads
`commit['commit']['author']['date']` with no guard), so the run aborts
instead of skipping the commit — no result tables are produced. -/
theorem missing_commit_date_aborts_analysis :
    analyzeData c3S 0 = Except.error "KeyError: commit author date" := rfl

/-- C3 (amended): a commit with a null author, or one whose CommitStats
entry is unavailable, is skipped for that single contribution only and
never causes an abort — whether the aggregation completes is unchanged
when every commit author and every stats entry is erased from the
snapshot; a commit with an absent authored date, however, raises at the
unguarded date access and aborts `analyze_data` (a completed run has a
date on every in-scope commit), producing neither result table. -/
theorem missing_field_handling :
    (∀ (s : Snapshot) (since : Nat) (res : Result), analyzeData s since = Except.ok res →
      ∀ r ∈ s.repos, ∀ c ∈ s.commits r.name, c.authoredDate.isSome = true) ∧
    (∀ (s : Snapshot) (since : Nat),
      isOkE (analyzeData (stripAuthorsStats s) since) = isOkE (analyzeData s since)) ∧
    (∀ (since : Nat) (stats : String → Option Stats) (rn : String) (st : CommitState)
       (c : CommitInfo) (d : Nat), c.authoredDate = some d → c.author = none →
       processCommit since stats rn st c = Except.ok st) ∧
    (∀ (since : Nat) (stats : String → Option Stats) (rn : String) (st : CommitState)
       (c : CommitInfo) (d : Nat) (a : String),
       c.authoredDate = some d → since ≤ d → c.author = some a → stats c.sha = none →
       ∃ st2, processCommit since stats rn st c = Except.ok st2 ∧
         st2.la = st.la ∧ st2.ld = st.ld ∧ st2.cc a = st.cc a + 1) ∧
    (∀ (since : Nat) (stats : String → Option Stats) (rn : String) (st : CommitState)
       (c : CommitInfo), c.authoredDate = none →
       processCommit since stats rn st c = Except.error "KeyError: commit author date") := by
  refine ⟨?_, ?_, ?_, ?_, ?_⟩
  · intro s since res h r hr c hc
    have hok : isOkE (analyzeData s since) = true := by rw [h]; rfl
    rw [analyzeData_isOk] at hok
    unfold analyzeOkB at hok
    rw [List.all_eq_true] at hok
    have hrr := hok r hr
    simp only [Bool.and_eq_true] at hrr
    have hall := hrr.2
    rw [List.all_eq_true] at hall
    exact hall c hc
  · intro s since
    rw [analyzeData_isOk, analyzeData_isOk]
    unfold analyzeOkB stripAuthorsStats
    simp only [List.all_map]
    rfl
  · intro since stats rn st c d hd ha
    unfold processCommit
    rw [hd, ha]
    by_cases hs : since ≤ d <;> simp [hs]
  · intro since stats rn st c d a hd hs ha hst
    unfold processCommit
    rw [hd, ha, hst]
    refine ⟨{ st with cc := bump st.cc a, rw := bump2 st.rw a rn, ra := bump st.ra rn },
      by simp [hs], rfl, rfl, ?_⟩
    simp [bump]
  · intro since stats rn st c hd
    unfold processCommit
    rw [hd]

/-- C3 witness: on the completed boundary run every commit has a date;
erasing authors and stats there changes nothing about completion; a
dated commit with a null author is a no-op; a dated, authored commit
with no stats bumps only the commit count; a dateless commit raises. -/
theorem missing_field_handling_witness :
    (⟨"s1", some "alice", some 9⟩ : CommitInfo).authoredDate.isSome = true ∧
    isOkE (analyzeData (stripAuthorsStats w1S) 10) = isOkE (analyzeData w1S 10) ∧
    processCommit 10 (fun _ => none) "r" initAcc.cst ⟨"sX", none, some 10⟩ =
      Except.ok initAcc.cst ∧
    (∃ st2, processCommit 10 (fun _ => none) "r" initAcc.cst ⟨"sY", some "alice", some 10⟩ =
        Except.ok st2 ∧
      st2.la = initAcc.cst.la ∧ st2.ld = initAcc.cst.ld ∧
      st2.cc "alice" = initAcc.cst.cc "alice" + 1) ∧
    processCommit 10 (fun _ => none) "r" initAcc.cst ⟨"sZ", some "alice", none⟩ =
      Except.error "KeyError: commit author date" :=
  ⟨missing_field_handling.1 w1S 10 w1Res rfl repoR (by decide)
     ⟨"s1", some "alice", some 9⟩ (by decide),
   missing_field_handling.2.1 w1S 10,
   missing_field_handling.2.2.1 10 (fun _ => none) "r" initAcc.cst ⟨"sX", none, some 10⟩ 10
     rfl rfl,
   missing_field_handling.2.2.2.1 10 (fun _ => none) "r" initAcc.cst
     ⟨"sY", some "alice", some 10⟩ 10 "alice" rfl (by decide) rfl rfl,
   missing_field_handling.2.2.2.2 10 (fun _ => none) "r" initAcc.cst
     ⟨"sZ", some "alice", none⟩ rfl⟩

/-! ### Claim C6 — failure rate -/

/-- C6: every repository row's failure rate is exactly 0 when its
deployment attempt count is 0 and `(failures / attempts) * 100`
otherwise — the division is only taken under the positive guard. -/
theorem failure_rate_formula (s : Snapshot) (since : Nat) (res : Result)
    (h : analyzeData s since = Except.ok res) :
    ∀ rd ∈ res.repo_details,
      rd.failure_rate =
        if 0 < rd.deployment_count then
          ((rd.deployment_failures : ℚ) / (rd.deployment_count : ℚ)) * 100
        else 0 := by
  obtain ⟨acc, hfold, hcc, hra, hdet, hrec, hmttr, hsum⟩ := analyzeData_destruct s since res h
  obtain ⟨f1, f2, f3, f4⟩ := foldRepos_ok_spec s since s.repos initAcc acc hfold
  intro rd hrd
  rw [hdet, f4] at hrd
  simp only [initAcc, List.nil_append] at hrd
  obtain ⟨rd0, hrd0, hrdeq⟩ := List.mem_map.mp hrd
  obtain ⟨r, hr, hr0⟩ := List.mem_map.mp hrd0
  subst hrdeq
  subst hr0
  rfl

/-- The first repository row of the boundary-scenario result. -/
def rdW : RepoDetail := w1Res.repo_details.getD 0 default

/-- C6 witness: the formula instantiated on the boundary snapshot's
single row (0 attempts, failure rate 0). -/
theorem failure_rate_formula_witness :
    rdW.failure_rate =
      if 0 < rdW.deployment_count then
        ((rdW.deployment_failures : ℚ) / (rdW.deployment_count : ℚ)) * 100
      else 0 :=
  failure_rate_formula w1S 10 w1Res rfl rdW (by decide)

/-! ### Claim C8 — zero workflow runs -/

/-- C8 counterexample: for a repository with zero workflow runs the row
has 0 attempts and failure rate 0 as claimed, but its average deployment
duration is the numeric 0 and the repo-table formatter renders it as the
width-22 string "0.00" — not as "no data"; the "no data" wording exists
only in the aggregate summary. -/
theorem zero_workflow_runs_rendered_numeric :
    analyzeData c8S 0 = Except.ok c8Res ∧
    c8Res.repo_details.map RepoDetail.deployment_count = [0] ∧
    c8Res.repo_details.map RepoDetail.failure_rate = [0] ∧
    c8Res.repo_details.map RepoDetail.avg_deployment_duration = [0] ∧
    fmtAvgDeploymentDuration 0 = "                  0.00" ∧
    ("                  0.00" : String) ≠ "no data" :=
  ⟨rfl, by decide, by decide, by decide, fmtAvgDeploymentDuration_zero, by decide⟩

/-- C8 (amended): a repository with zero workflow runs gets a row with
deployment attempts 0 and failure rate 0, and its average deployment
duration is the numeric 0, rendered by the repository-table formatter
as a fixed-point number (never the string "no data"); the "no data"
report appears only in the aggregate deployment-duration summary, which
is `none` when no analyzed repository has duration samples. -/
theorem zero_workflow_runs_row (s : Snapshot) (since : Nat) (res : Result)
    (h : analyzeData s since = Except.ok res) (r : Repo) (hr : r ∈ s.repos)
    (hz : s.workflow_runs r.name = some [] ∨ s.workflow_runs r.name = none) :
    (∃ rd ∈ res.repo_details,
      rd.name = r.name ∧ rd.deployment_count = 0 ∧ rd.failure_rate = 0 ∧
      rd.avg_deployment_duration = 0 ∧
      fmtAvgDeploymentDuration rd.avg_deployment_duration ≠ "no data") ∧
    ((∀ r2 ∈ s.repos,
        s.workflow_runs r2.name = some [] ∨ s.workflow_runs r2.name = none) →
      res.avg_deployment_duration_summary = none) := by
  obtain ⟨acc, hfold, hcc, hra, hdet, hrec, hmttr, hsum⟩ := analyzeData_destruct s since res h
  obtain ⟨f1, f2, f3, f4⟩ := foldRepos_ok_spec s since s.repos initAcc acc hfold
  constructor
  · refine ⟨addBranchFields acc.repoBranch (mkRepoDetail0 s since initAcc.recovery r), ?_, ?_⟩
    · rw [hdet, f4]
      simp only [initAcc, List.nil_append]
      exact List.mem_map_of_mem _ (List.mem_map_of_mem _ hr)
    · have hda := deployAccFor_zero s since r.name hz
      refine ⟨rfl, ?_, ?_, ?_, fmt_ne_no_data _⟩
      · show (deployAccFor s since r.name).count = 0
        rw [hda]
      · show (if 0 < (deployAccFor s since r.name).count then _ else 0) = 0
        rw [hda]
        rfl
      · show avgOrZero (deployAccFor s since r.name).durations = 0
        rw [hda]
        rfl
  · intro hall
    rw [hsum]
    rw [flatten_eq_nil_of_all_nil s.repos _
      (fun r2 hr2 => by rw [deployAccFor_zero s since r2.name (hall r2 hr2)])]
    rfl

/-- C8 (amended) witness: instantiated on the zero-run snapshot. -/
theorem zero_workflow_runs_row_witness :
    (∃ rd ∈ c8Res.repo_details,
      rd.name = repoR.name ∧ rd.deployment_count = 0 ∧ rd.failure_rate = 0 ∧
      rd.avg_deployment_duration = 0 ∧
      fmtAvgDeploymentDuration rd.avg_deployment_duration ≠ "no data") ∧
    c8Res.avg_deployment_duration_summary = none := by
  have h := zero_workflow_runs_row c8S 0 c8Res rfl repoR (by decide) (Or.inl rfl)
  refine ⟨h.1, h.2 ?_⟩
  intro r2 hr2
  have : r2 = repoR := by
    simpa [c8S, emptySnapshot] using hr2
  subst this
  exact Or.inl rfl

/-! ### Claim C10 — recovery times -/

/-- C10: nothing in the aggregation ever appends a recovery-time
sample: on every completed run the recovery-time map is empty for every
repository, every row's average recovery time is 0, and the aggregate
mean-time-to-recover takes the no-samples branch (`none`). -/
theorem recovery_times_stay_empty (s : Snapshot) (since : Nat) (res : Result)
    (h : analyzeData s since = Except.ok res) :
    (∀ rn, res.recovery_times rn = []) ∧
    (∀ rd ∈ res.repo_details, rd.avg_recovery_time = 0) ∧
    res.mean_time_to_recover = none := by
  obtain ⟨acc, hfold, hcc, hra, hdet, hrec, hmttr, hsum⟩ := analyzeData_destruct s since res h
  obtain ⟨f1, f2, f3, f4⟩ := foldRepos_ok_spec s since s.repos initAcc acc hfold
  refine ⟨?_, ?_, ?_⟩
  · intro rn
    rw [hrec, f3]
    rfl
  · intro rd hrd
    rw [hdet, f4] at hrd
    simp only [initAcc, List.nil_append] at hrd
    obtain ⟨rd0, hrd0, hrdeq⟩ := List.mem_map.mp hrd
    obtain ⟨r, hr, hr0⟩ := List.mem_map.mp hrd0
    subst hrdeq
    subst hr0
    rfl
  · rw [hmttr, f3]
    rw [flatten_eq_nil_of_all_nil s.repos (fun r => initAcc.recovery r.name) (fun r2 _ => rfl)]
    rfl

/-- C10 witness: instantiated on the boundary snapshot. -/
theorem recovery_times_stay_empty_witness :
    w1Res.recovery_times "r" = [] ∧ w1Res.mean_time_to_recover = none :=
  ⟨(recovery_times_stay_empty w1S 10 w1Res rfl).1 "r",
   (recovery_times_stay_empty w1S 10 w1Res rfl).2.2⟩

end GHM
